import Mathlib

/-!
# uaclient: request routing and startup/shutdown of the OPC UA client system

A shallow embedding of `uaclient/uaclient.go`:

* `Serving`, `browse`, `access`: the request router, as functions that return
  the ordered list of calls the handler performs;
* `main`: the lifecycle orchestrator, as a function that returns the final
  store (heap, `sys.UAsset`, `Resources`), the pending deferred calls, the
  chronological event trace and the way the process ended.

Calls into other packages (`usecases.Configure`, `json.Unmarshal`,
`newResource`, `browseNode`, `read`, ...) are events of the trace; what they
return is taken as a parameter.
-/

namespace UAClient

/-! ## Data model -/

/-- The fields of the `uaConfig` composite literal built in `main`
(Go maps are association lists). -/
structure uaConfig where
  Name : String
  Details : List (String × List String)
  ServerAddress : String
  NodeList : List (String × List String)
deriving DecidableEq, Repr

/-- Modelled from the spec: the `UnitAsset` struct is declared outside
`uaclient.go`. The spec gives a Unit Asset a name, free-form metadata and an
owned connection (here the address of the server it is connected to). -/
structure UnitAsset where
  Name : String
  Details : List (String × List String)
  ServerAddress : String
deriving DecidableEq, Repr

/-- Modelled from the spec: `GetName` is declared outside `uaclient.go`;
the name of a Unit Asset is the key it is registered under. -/
def UnitAsset.GetName (node : UnitAsset) : String := node.Name

/-- The part of `*http.Request` the router inspects. -/
structure Request where
  Method : String
deriving DecidableEq, Repr

/-- `http.StatusBadRequest`. -/
def StatusBadRequest : Nat := 400

/-- `http.StatusNotFound`. -/
def StatusNotFound : Nat := 404

/-! ## Request router -/

/-- The calls a handler can perform: `node.browseNode(w)`, `node.read()`,
`usecases.HTTPProcessGetRequest(w, r, &form)` and `http.Error(w, msg, code)`.
`V` is the type of the value form returned by `read`. -/
inductive Effect (V : Type) where
  | browseNode (node : UnitAsset)
  | read (node : UnitAsset)
  | HTTPProcessGetRequest (r : Request) (form : V)
  | httpError (msg : String) (code : Nat)
deriving DecidableEq, Repr

/-- `func (node *UnitAsset) browse(w, r)`. -/
def browse {V : Type} (node : UnitAsset) (r : Request) : List (Effect V) :=
  if r.Method = "GET" then
    [Effect.browseNode node]
  else
    [Effect.httpError "Method is not supported." StatusNotFound]

/-- `func (node *UnitAsset) access(w, r)`; `read` gives the value form that
`node.read()` returns. -/
def access {V : Type} (read : UnitAsset → V) (node : UnitAsset) (r : Request) :
    List (Effect V) :=
  if r.Method = "GET" then
    let vauleForm := read node
    [Effect.read node, Effect.HTTPProcessGetRequest r vauleForm]
  else
    [Effect.httpError "Method is not supported." StatusNotFound]

/-- `func (node *UnitAsset) Serving(w, r, servicePath)`. -/
def Serving {V : Type} (read : UnitAsset → V) (node : UnitAsset) (r : Request)
    (servicePath : String) : List (Effect V) :=
  if servicePath = "browse" then
    browse node r
  else if servicePath = "access" then
    access read node r
  else
    [Effect.httpError
      "Invalid service request [Do not modify the services subpath in the configurration file]"
      StatusBadRequest]

/-- Number of `browseNode` calls in a list of effects. -/
def countBrowseNode {V : Type} (es : List (Effect V)) : Nat :=
  (es.filter fun e => match e with
    | Effect.browseNode _ => true
    | _ => false).length

/-- Number of `read` calls in a list of effects. -/
def countRead {V : Type} (es : List (Effect V)) : Nat :=
  (es.filter fun e => match e with
    | Effect.read _ => true
    | _ => false).length

/-- The four outcomes of a request. -/
inductive Outcome where
  | browsed
  | readAndRendered
  | notFound404
  | badRequest400
deriving DecidableEq, Repr

/-- Whether an outcome occurs in the effects of a request: a `browseNode`
call, a `read` call or a rendering call, an error response with status 404,
an error response with status 400. -/
def Outcome.occurs {V : Type} (o : Outcome) (es : List (Effect V)) : Bool :=
  es.any fun e =>
    match o, e with
    | Outcome.browsed, Effect.browseNode _ => true
    | Outcome.readAndRendered, Effect.read _ => true
    | Outcome.readAndRendered, Effect.HTTPProcessGetRequest _ _ => true
    | Outcome.notFound404, Effect.httpError _ code => code = StatusNotFound
    | Outcome.badRequest400, Effect.httpError _ code => code = StatusBadRequest
    | _, _ => false

/-! ## Lifecycle orchestrator -/

/-- What a pointer stored in `sys.UAsset` or `Resources` can designate: the
template (`&template`, a `uaConfig`) or a variable holding a `UnitAsset`
(`&node`). -/
inductive Obj where
  | config (c : uaConfig)
  | asset (u : UnitAsset)
deriving DecidableEq, Repr

/-- A pointer is the index of a heap cell. -/
abbrev Ptr := Nat

/-- The memory `main` works on: the heap cells, the slice `sys.UAsset` and the
map `Resources` (an association list with unique keys, in insertion order). -/
structure Store where
  heap : List Obj
  UAsset : List Ptr
  Resources : List (String × Ptr)
deriving DecidableEq, Repr

/-- Go map assignment `m[k] = v`: replaces the value of an existing key,
otherwise adds the key. -/
def mapSet (m : List (String × Ptr)) (k : String) (v : Ptr) : List (String × Ptr) :=
  match m with
  | [] => [(k, v)]
  | (k', v') :: rest => if k' = k then (k', v) :: rest else (k', v') :: mapSet rest k v

/-- Go map lookup `m[k]`. -/
def mapGet (m : List (String × Ptr)) (k : String) : Option Ptr :=
  match m with
  | [] => none
  | (k', v') :: rest => if k' = k then some v' else mapGet rest k

/-- Dereference a pointer. -/
def deref (heap : List Obj) (p : Ptr) : Option Obj := heap[p]?

/-- The variable that `for _, node := range nodelist` declares: one per
iteration (the language from Go 1.22 on) or one for the whole loop (before
Go 1.22). The language version is fixed by the module file, which is not part
of `uaclient.go`. -/
inductive LoopVar where
  | perIteration
  | perLoop
deriving DecidableEq, Repr

/-- The body of the inner loop, `p` being `&node`:
`sys.UAsset = append(sys.UAsset, &node); Resources[node.GetName()] = &node`. -/
def registerNode (p : Ptr) (node : UnitAsset) (s : Store) : Store :=
  { s with UAsset := s.UAsset ++ [p], Resources := mapSet s.Resources node.GetName p }

/-- The inner loop with a fresh variable `node` in every iteration. -/
def rangePerIteration : List UnitAsset → Store → Store
  | [], s => s
  | node :: rest, s =>
      rangePerIteration rest
        (registerNode s.heap.length node { s with heap := s.heap ++ [Obj.asset node] })

/-- The inner loop with the single variable `node` at address `p`, assigned
anew in every iteration. -/
def rangePerLoop (p : Ptr) : List UnitAsset → Store → Store
  | [], s => s
  | node :: rest, s =>
      rangePerLoop p rest
        (registerNode p node { s with heap := s.heap.set p (Obj.asset node) })

/-- The loop `for _, node := range nodelist { ... }` of `main`. -/
def rangeNodes : LoopVar → List UnitAsset → Store → Store
  | LoopVar.perIteration, nodelist, s => rangePerIteration nodelist s
  | LoopVar.perLoop, nodelist, s =>
      rangePerLoop s.heap.length nodelist
        { s with heap := s.heap ++ [Obj.asset ⟨"", [], ""⟩] }

/-- The observable steps of `main`, in program order. `Fatalf` is
`log.Fatalf`, which prints and calls `os.Exit(1)`: the process ends there and
deferred calls are not run. `cleanup i` is a call of the cleanup function
returned by the `newResource` call of block `i` (counted from 0). -/
inductive Event where
  | Configure
  | Unmarshal (i : Nat)
  | newResource (i : Nat)
  | Fatalf (msg : String)
  | CreateCSR
  | RegisterServices
  | goHttpInterface
  | recvSigs
  | Println
  | cancel
  | Sleep (seconds : Nat)
  | cleanup (i : Nat)
deriving DecidableEq, Repr

/-- A call registered with `defer`. -/
inductive Deferred where
  | cancel
  | cleanup (i : Nat)
deriving DecidableEq, Repr

/-- How the process ended: `main` returned, or `log.Fatalf` exited it. -/
inductive Exit where
  | returned
  | fatal
deriving DecidableEq, Repr

/-- What the collaborators outside `uaclient.go` return: `usecases.Configure`
(the raw blocks or an error), `json.Unmarshal` into a `uaConfig` (the decoded
configuration or an error) and the node list of the `newResource` call of
block `i`. -/
structure Env where
  Configure : Except String (List String)
  Unmarshal : String → Except String uaConfig
  newResource : Nat → uaConfig → List UnitAsset

/-- The state of a run of `main`: memory, pending deferred calls (the most
recently deferred first) and the events so far. -/
structure Run where
  store : Store
  deferred : List Deferred
  trace : List Event
deriving DecidableEq, Repr

/-- The call a deferred entry performs when it runs. -/
def Deferred.run : Deferred → Event
  | Deferred.cancel => Event.cancel
  | Deferred.cleanup i => Event.cleanup i

/-- The loop `for _, raw := range rawResources { ... }` of `main`, from block
number `i` on. `Except.error` is the state in which `log.Fatalf` ended the
process, `Except.ok` the state after the last block. -/
def startupLoop (sem : LoopVar) (env : Env) : List String → Nat → Run → Except Run Run
  | [], _, r => Except.ok r
  | raw :: rest, i, r =>
      match env.Unmarshal raw with
      | Except.error err =>
          Except.error
            { r with trace := r.trace ++
                [Event.Unmarshal i,
                 Event.Fatalf ("Resource configuration error: " ++ err ++ "\n")] }
      | Except.ok cua =>
          let nodelist := env.newResource i cua
          startupLoop sem env rest (i + 1)
            { store := rangeNodes sem nodelist r.store
              deferred := Deferred.cleanup i :: r.deferred
              trace := r.trace ++ [Event.Unmarshal i, Event.newResource i] }

/-- The template asset of `main`. -/
def template : uaConfig :=
  { Name := "PLC with OPC UA server"
    Details := [("PLC", ["Prosys OPC UA Simulation Server"]), ("Location", ["Line 1"]),
      ("KKS", ["YLLCP001"])]
    ServerAddress := "opc.tcp://10.0.0.17:53530/OPCUA/SimulationServer"
    NodeList := [("Node_Id", []), ("Browse_Name", []), ("Ref_Type", [])] }

/-- The address of `template`. -/
def templatePtr : Ptr := 0

/-- `func main()`: the final state and the way the process ended. When `main`
returns, the pending deferred calls run, the most recently deferred first. -/
def main (sem : LoopVar) (env : Env) : Run × Exit :=
  let s0 : Store := { heap := [Obj.config template], UAsset := [templatePtr], Resources := [] }
  let d0 : List Deferred := [Deferred.cancel]
  match env.Configure with
  | Except.error err =>
      ({ store := s0, deferred := d0,
         trace := [Event.Configure, Event.Fatalf ("Configuration error: " ++ err ++ "\n")] },
       Exit.fatal)
  | Except.ok rawResources =>
      let r0 : Run :=
        { store := { s0 with UAsset := [], Resources := [] }, deferred := d0,
          trace := [Event.Configure] }
      match startupLoop sem env rawResources 0 r0 with
      | Except.error r => (r, Exit.fatal)
      | Except.ok r =>
          ({ r with
              deferred := []
              trace := r.trace ++
                [Event.CreateCSR, Event.RegisterServices, Event.goHttpInterface,
                 Event.recvSigs, Event.Println, Event.cancel, Event.Sleep 3] ++
                r.deferred.map Deferred.run },
           Exit.returned)

/-! ## Vocabulary of the startup theorems -/

/-- Whether `json.Unmarshal` accepts a raw block. -/
def decodes (env : Env) (raw : String) : Bool :=
  match env.Unmarshal raw with
  | Except.ok _ => true
  | Except.error _ => false

/-- The node lists returned by the `newResource` calls for the raw blocks
numbered from `i`, up to the first block that does not decode. -/
def nodeLists (env : Env) : List String → Nat → List (List UnitAsset)
  | [], _ => []
  | raw :: rest, i =>
      match env.Unmarshal raw with
      | Except.ok cua => env.newResource i cua :: nodeLists env rest (i + 1)
      | Except.error _ => []

/-- All configured assets, in raw-block order and then node order. -/
def allNodes (env : Env) (raws : List String) : List UnitAsset :=
  (nodeLists env raws 0).flatten

/-- The events of the blocks `i, ..., i + n - 1` when each of them decodes. -/
def blockEvents (i n : Nat) : List Event :=
  ((List.range' i n).map fun j => [Event.Unmarshal j, Event.newResource j]).flatten

/-- The last asset of a list that has the name `k`. -/
def lastNamed (nodes : List UnitAsset) (k : String) : Option UnitAsset :=
  nodes.reverse.find? fun u => u.GetName = k

/-- The keys of `Resources` after registering `nodes` in a map whose keys
are `ks`: a name that is not yet a key is added at the end. -/
def keysAfter (ks : List String) : List UnitAsset → List String
  | [] => ks
  | node :: rest => keysAfter (if node.GetName ∈ ks then ks else ks ++ [node.GetName]) rest

/-- The state after the blocks `good`, numbered from `i`, were processed from
the state `r`, each of them decoding. -/
def afterBlocks (sem : LoopVar) (env : Env) (good : List String) (i : Nat) (r : Run) : Run :=
  { store := (nodeLists env good i).foldl (fun s nl => rangeNodes sem nl s) r.store
    deferred := (List.range' i good.length).reverse.map Deferred.cleanup ++ r.deferred
    trace := r.trace ++ blockEvents i good.length }

/-- The state in which `main` enters the loop over the raw blocks. -/
def loopEntry : Run :=
  { store := { heap := [Obj.config template], UAsset := [], Resources := [] }
    deferred := [Deferred.cancel]
    trace := [Event.Configure] }

/-- The registry after the nodes `done` were registered, whatever the
pointers designate: `sys.UAsset` has one entry for each of them, and every
entry of `Resources` is a pointer that was appended to `sys.UAsset` in an
iteration whose node has the key as its name. -/
def RegistryInv (s : Store) (done : List UnitAsset) : Prop :=
  s.UAsset.length = done.length ∧
    ∀ (k : String) (p : Nat), mapGet s.Resources k = some p →
      ∃ (j : Nat) (u : UnitAsset),
        done[j]? = some u ∧ s.UAsset[j]? = some p ∧ u.GetName = k

/-- The number of the first raw block that does not decode (the number of
blocks when all decode). -/
def firstMalformed (env : Env) (raws : List String) : Nat :=
  (raws.takeWhile (decodes env)).length

/-- A configuration of two PLCs, each with two nodes; the block "bad" does
not decode. -/
def plcEnv : Env :=
  { Configure := Except.ok ["PLC1", "PLC2"]
    Unmarshal := fun raw =>
      if raw = "bad" then Except.error "unexpected end of JSON input"
      else Except.ok ⟨raw, [], "opc.tcp://" ++ raw, []⟩
    newResource := fun _ cua =>
      [⟨cua.Name ++ "/Temperature", [], cua.ServerAddress⟩,
       ⟨cua.Name ++ "/Pressure", [], cua.ServerAddress⟩] }

/-- Two blocks whose assets share the name "Temperature". -/
def dupEnv : Env :=
  { plcEnv with newResource := fun _ cua => [⟨"Temperature", [], cua.ServerAddress⟩] }

/-- A valid block followed by one that does not decode and a valid one. -/
def malformedEnv : Env :=
  { plcEnv with Configure := Except.ok ["PLC1", "bad", "PLC3"] }

/-! ## Router theorems -/

/-- C1: for every unit asset, request and service path other than "browse" and
"access", `Serving` performs exactly one call, an error response with status
400 whose message tells the caller not to modify the services subpath, and it
calls neither `browseNode` nor `read`. -/
theorem Serving_invalid_path {V : Type} (read : UnitAsset → V) (node : UnitAsset)
    (r : Request) (servicePath : String)
    (hb : servicePath ≠ "browse") (ha : servicePath ≠ "access") :
    Serving read node r servicePath =
        [Effect.httpError
          "Invalid service request [Do not modify the services subpath in the configurration file]"
          400]
      ∧ countBrowseNode (Serving read node r servicePath) = 0
      ∧ countRead (Serving read node r servicePath) = 0 := by
  have h : Serving read node r servicePath =
      [Effect.httpError
        "Invalid service request [Do not modify the services subpath in the configurration file]"
        400] := by
    simp [Serving, hb, ha, StatusBadRequest]
  refine ⟨h, ?_, ?_⟩ <;> rw [h] <;> rfl

/-- Witness of C1 at `DELETE /PLC1/unknown`. -/
theorem Serving_invalid_path_witness :
    Serving (fun _ => (0 : Nat)) ⟨"PLC1", [], ""⟩ ⟨"DELETE"⟩ "unknown" =
        [Effect.httpError
          "Invalid service request [Do not modify the services subpath in the configurration file]"
          400]
      ∧ countBrowseNode (Serving (fun _ => (0 : Nat)) ⟨"PLC1", [], ""⟩ ⟨"DELETE"⟩ "unknown") = 0
      ∧ countRead (Serving (fun _ => (0 : Nat)) ⟨"PLC1", [], ""⟩ ⟨"DELETE"⟩ "unknown") = 0 :=
  Serving_invalid_path (fun _ => (0 : Nat)) ⟨"PLC1", [], ""⟩ ⟨"DELETE"⟩ "unknown"
    (by decide) (by decide)

/-- C2: on the service paths "browse" and "access", every method other than
"GET" gets the single response `http.Error(w, "Method is not supported.", 404)`
and neither `browseNode` nor `read` is called. -/
theorem Serving_method_not_supported {V : Type} (read : UnitAsset → V) (node : UnitAsset)
    (r : Request) (servicePath : String)
    (hp : servicePath = "browse" ∨ servicePath = "access") (hm : r.Method ≠ "GET") :
    Serving read node r servicePath = [Effect.httpError "Method is not supported." 404]
      ∧ countBrowseNode (Serving read node r servicePath) = 0
      ∧ countRead (Serving read node r servicePath) = 0 := by
  have h : Serving read node r servicePath =
      [Effect.httpError "Method is not supported." 404] := by
    rcases hp with hp | hp <;> subst hp <;>
      simp [Serving, browse, access, hm, StatusNotFound]
  refine ⟨h, ?_, ?_⟩ <;> rw [h] <;> rfl

/-- Witness of C2 at `PUT /PLC1/access`. -/
theorem Serving_method_not_supported_witness :
    Serving (fun _ => (0 : Nat)) ⟨"PLC1", [], ""⟩ ⟨"PUT"⟩ "access" =
        [Effect.httpError "Method is not supported." 404]
      ∧ countBrowseNode (Serving (fun _ => (0 : Nat)) ⟨"PLC1", [], ""⟩ ⟨"PUT"⟩ "access") = 0
      ∧ countRead (Serving (fun _ => (0 : Nat)) ⟨"PLC1", [], ""⟩ ⟨"PUT"⟩ "access") = 0 :=
  Serving_method_not_supported (fun _ => (0 : Nat)) ⟨"PLC1", [], ""⟩ ⟨"PUT"⟩ "access"
    (Or.inr rfl) (by decide)

/-- C3: `Serving` dispatches every request to exactly one handler. `GET` on
"browse" calls `browseNode` once and never `read`; `GET` on "access" calls
`read` once, hands the value form it returned to `HTTPProcessGetRequest` and
never calls `browseNode`; and for every service path and method exactly one of
the four outcomes (browse, read and render, 404, 400) occurs. -/
theorem Serving_exactly_one_handler {V : Type} (read : UnitAsset → V) (node : UnitAsset)
    (r : Request) (servicePath : String) :
    (servicePath = "browse" → r.Method = "GET" →
        Serving read node r servicePath = [Effect.browseNode node]
          ∧ countBrowseNode (Serving read node r servicePath) = 1
          ∧ countRead (Serving read node r servicePath) = 0)
      ∧ (servicePath = "access" → r.Method = "GET" →
        Serving read node r servicePath =
            [Effect.read node, Effect.HTTPProcessGetRequest r (read node)]
          ∧ countRead (Serving read node r servicePath) = 1
          ∧ countBrowseNode (Serving read node r servicePath) = 0)
      ∧ ∃! o : Outcome, o.occurs (Serving read node r servicePath) = true := by
  refine ⟨?_, ?_, ?_⟩
  · intro hp hm
    have h : Serving read node r servicePath = [Effect.browseNode node] := by
      simp [Serving, browse, hp, hm]
    refine ⟨h, ?_, ?_⟩ <;> rw [h] <;> rfl
  · intro hp hm
    have h : Serving read node r servicePath =
        [Effect.read node, Effect.HTTPProcessGetRequest r (read node)] := by
      subst hp
      simp [Serving, access, hm]
    refine ⟨h, ?_, ?_⟩ <;> rw [h] <;> rfl
  · by_cases hb : servicePath = "browse"
    · by_cases hm : r.Method = "GET"
      · refine ⟨Outcome.browsed, ?_, ?_⟩
        · simp [Serving, browse, hb, hm, Outcome.occurs]
        · intro o ho
          cases o <;> simp [Serving, browse, hb, hm, Outcome.occurs] at ho ⊢
      · refine ⟨Outcome.notFound404, ?_, ?_⟩
        · simp [Serving, browse, hb, hm, Outcome.occurs]
        · intro o ho
          cases o <;>
            simp [Serving, browse, hb, hm, Outcome.occurs, StatusNotFound,
              StatusBadRequest] at ho ⊢
    · by_cases ha : servicePath = "access"
      · by_cases hm : r.Method = "GET"
        · refine ⟨Outcome.readAndRendered, ?_, ?_⟩
          · subst ha
            simp [Serving, access, hm, Outcome.occurs]
          · intro o ho
            subst ha
            cases o <;> simp [Serving, access, hm, Outcome.occurs] at ho ⊢
        · refine ⟨Outcome.notFound404, ?_, ?_⟩
          · subst ha
            simp [Serving, access, hm, Outcome.occurs]
          · intro o ho
            subst ha
            cases o <;>
              simp [Serving, access, hm, Outcome.occurs, StatusNotFound,
                StatusBadRequest] at ho ⊢
      · refine ⟨Outcome.badRequest400, ?_, ?_⟩
        · simp [Serving, hb, ha, Outcome.occurs]
        · intro o ho
          cases o <;>
            simp [Serving, hb, ha, Outcome.occurs, StatusNotFound,
              StatusBadRequest] at ho ⊢

/-! ## The loop over the raw blocks -/

theorem decodes_eq_true {env : Env} {raw : String} (h : decodes env raw = true) :
    ∃ cua, env.Unmarshal raw = Except.ok cua := by
  unfold decodes at h
  cases hu : env.Unmarshal raw with
  | ok cua => exact ⟨cua, rfl⟩
  | error err => rw [hu] at h; cases h

theorem decodes_eq_false {env : Env} {raw : String} (h : decodes env raw = false) :
    ∃ err, env.Unmarshal raw = Except.error err := by
  unfold decodes at h
  cases hu : env.Unmarshal raw with
  | ok cua => rw [hu] at h; cases h
  | error err => exact ⟨err, rfl⟩

theorem blockEvents_zero (i : Nat) : blockEvents i 0 = [] := rfl

theorem blockEvents_succ (i n : Nat) :
    blockEvents i (n + 1) =
      Event.Unmarshal i :: Event.newResource i :: blockEvents (i + 1) n := by
  simp [blockEvents, List.range'_succ]

theorem afterBlocks_nil (sem : LoopVar) (env : Env) (i : Nat) (r : Run) :
    afterBlocks sem env [] i r = r := by
  simp [afterBlocks, nodeLists, blockEvents]

theorem afterBlocks_cons (sem : LoopVar) (env : Env) (raw : String) (rest : List String)
    (i : Nat) (r : Run) (cua : uaConfig) (h : env.Unmarshal raw = Except.ok cua) :
    afterBlocks sem env (raw :: rest) i r =
      afterBlocks sem env rest (i + 1)
        { store := rangeNodes sem (env.newResource i cua) r.store
          deferred := Deferred.cleanup i :: r.deferred
          trace := r.trace ++ [Event.Unmarshal i, Event.newResource i] } := by
  simp [afterBlocks, nodeLists, h, blockEvents_succ, List.range'_succ]

/-- Blocks that decode are processed one after the other; the loop then goes
on with the remaining blocks. -/
theorem startupLoop_append (sem : LoopVar) (env : Env) (good rest : List String)
    (hd : ∀ raw ∈ good, decodes env raw = true) (i : Nat) (r : Run) :
    startupLoop sem env (good ++ rest) i r =
      startupLoop sem env rest (i + good.length) (afterBlocks sem env good i r) := by
  induction good generalizing i r with
  | nil => simp [afterBlocks_nil]
  | cons raw good ih =>
      obtain ⟨cua, hcua⟩ := decodes_eq_true (hd raw (List.mem_cons_self _ _))
      have hd' : ∀ x ∈ good, decodes env x = true :=
        fun x hx => hd x (List.mem_cons_of_mem _ hx)
      rw [afterBlocks_cons sem env raw good i r cua hcua]
      simp only [List.cons_append, startupLoop, hcua, List.length_cons, List.append_eq]
      rw [ih hd']
      congr 1
      omega

/-- When every block decodes the loop runs to its end. -/
theorem startupLoop_all (sem : LoopVar) (env : Env) (raws : List String)
    (hd : ∀ raw ∈ raws, decodes env raw = true) (i : Nat) (r : Run) :
    startupLoop sem env raws i r = Except.ok (afterBlocks sem env raws i r) := by
  have h := startupLoop_append sem env raws [] hd i r
  simpa [startupLoop] using h

/-- The first block that does not decode ends the process. -/
theorem startupLoop_malformed (sem : LoopVar) (env : Env) (good rest : List String)
    (bad err : String) (hd : ∀ raw ∈ good, decodes env raw = true)
    (hb : env.Unmarshal bad = Except.error err) (i : Nat) (r : Run) :
    startupLoop sem env (good ++ bad :: rest) i r =
      Except.error
        { afterBlocks sem env good i r with
          trace := (afterBlocks sem env good i r).trace ++
            [Event.Unmarshal (i + good.length),
             Event.Fatalf ("Resource configuration error: " ++ err ++ "\n")] } := by
  rw [startupLoop_append sem env good (bad :: rest) hd i r]
  simp [startupLoop, hb]

theorem main_of_all_decode (sem : LoopVar) (env : Env) (raws : List String)
    (hc : env.Configure = Except.ok raws)
    (hd : ∀ raw ∈ raws, decodes env raw = true) :
    main sem env =
      ({ store := (afterBlocks sem env raws 0 loopEntry).store
         deferred := []
         trace := Event.Configure :: blockEvents 0 raws.length ++
           [Event.CreateCSR, Event.RegisterServices, Event.goHttpInterface,
            Event.recvSigs, Event.Println, Event.cancel, Event.Sleep 3] ++
           ((List.range' 0 raws.length).reverse.map Event.cleanup ++ [Event.cancel]) },
       Exit.returned) := by
  have h := startupLoop_all sem env raws hd 0 loopEntry
  unfold loopEntry at h
  simp only [main, hc, h]
  simp [afterBlocks, loopEntry, Deferred.run, List.map_reverse, Function.comp_def]

/-! ## The registry: keys of `Resources` and length of `sys.UAsset` -/

theorem mapSet_keys (m : List (String × Ptr)) (k : String) (v : Ptr) :
    (mapSet m k v).map Prod.fst =
      if k ∈ m.map Prod.fst then m.map Prod.fst else m.map Prod.fst ++ [k] := by
  induction m with
  | nil => simp [mapSet]
  | cons kv rest ih =>
      obtain ⟨k', v'⟩ := kv
      by_cases hk : k' = k
      · simp [mapSet, hk]
      · have hk' : ¬ k = k' := fun h => hk h.symm
        by_cases hr : k ∈ rest.map Prod.fst
        · simp only [mapSet, hk, if_false, List.map_cons, ih, hr, if_true, List.mem_cons,
            or_true]
        · simp only [mapSet, hk, if_false, List.map_cons, ih, hr, List.mem_cons, hk',
            or_self, List.cons_append]

theorem mapGet_mapSet (m : List (String × Ptr)) (k : String) (v : Ptr) (k0 : String) :
    mapGet (mapSet m k v) k0 = if k = k0 then some v else mapGet m k0 := by
  induction m with
  | nil => simp [mapSet, mapGet]
  | cons kv rest ih =>
      obtain ⟨k', v'⟩ := kv
      by_cases hk : k' = k
      · subst hk
        by_cases h0 : k' = k0 <;> simp [mapSet, mapGet, h0]
      · by_cases h0 : k' = k0
        · subst h0
          have hk' : ¬ k = k' := fun h => hk h.symm
          simp [mapSet, mapGet, hk, hk']
        · simp [mapSet, mapGet, hk, h0, ih]

theorem rangePerIteration_keys (nodes : List UnitAsset) (s : Store) :
    (rangePerIteration nodes s).Resources.map Prod.fst =
      keysAfter (s.Resources.map Prod.fst) nodes := by
  induction nodes generalizing s with
  | nil => rfl
  | cons node rest ih => simp [rangePerIteration, keysAfter, ih, registerNode, mapSet_keys]

theorem rangePerLoop_keys (p : Ptr) (nodes : List UnitAsset) (s : Store) :
    (rangePerLoop p nodes s).Resources.map Prod.fst =
      keysAfter (s.Resources.map Prod.fst) nodes := by
  induction nodes generalizing s with
  | nil => rfl
  | cons node rest ih => simp [rangePerLoop, keysAfter, ih, registerNode, mapSet_keys]

theorem rangeNodes_keys (sem : LoopVar) (nodes : List UnitAsset) (s : Store) :
    (rangeNodes sem nodes s).Resources.map Prod.fst =
      keysAfter (s.Resources.map Prod.fst) nodes := by
  cases sem
  · exact rangePerIteration_keys nodes s
  · simp [rangeNodes, rangePerLoop_keys]

theorem keysAfter_append (ks : List String) (a b : List UnitAsset) :
    keysAfter ks (a ++ b) = keysAfter (keysAfter ks a) b := by
  induction a generalizing ks with
  | nil => rfl
  | cons node rest ih => simp [keysAfter, ih]

theorem foldl_rangeNodes_keys (sem : LoopVar) (nls : List (List UnitAsset)) (s : Store) :
    (nls.foldl (fun s nl => rangeNodes sem nl s) s).Resources.map Prod.fst =
      keysAfter (s.Resources.map Prod.fst) nls.flatten := by
  induction nls generalizing s with
  | nil => rfl
  | cons nl rest ih => simp [ih, keysAfter_append, rangeNodes_keys]

theorem keysAfter_of_nodup (ks : List String) (nodes : List UnitAsset)
    (h : (ks ++ nodes.map UnitAsset.GetName).Nodup) :
    keysAfter ks nodes = ks ++ nodes.map UnitAsset.GetName := by
  induction nodes generalizing ks with
  | nil => simp [keysAfter]
  | cons node rest ih =>
      have hnot : node.GetName ∉ ks := by
        intro hin
        rw [List.nodup_append] at h
        exact h.2.2 hin (by simp)
      have h' : ((ks ++ [node.GetName]) ++ rest.map UnitAsset.GetName).Nodup := by
        simpa using h
      simp only [keysAfter, hnot, if_false]
      rw [ih _ h']
      simp

theorem keysAfter_nodup (ks : List String) (nodes : List UnitAsset) (h : ks.Nodup) :
    (keysAfter ks nodes).Nodup := by
  induction nodes generalizing ks with
  | nil => exact h
  | cons node rest ih =>
      by_cases hin : node.GetName ∈ ks
      · simpa [keysAfter, hin] using ih ks h
      · have h' : (ks ++ [node.GetName]).Nodup := by
          rw [List.nodup_append]
          refine ⟨h, by simp, ?_⟩
          intro a ha hb
          simp only [List.mem_singleton] at hb
          exact hin (hb ▸ ha)
        simpa [keysAfter, hin] using ih _ h'

theorem mem_keysAfter (ks : List String) (nodes : List UnitAsset) (k : String) :
    k ∈ keysAfter ks nodes ↔ k ∈ ks ∨ k ∈ nodes.map UnitAsset.GetName := by
  induction nodes generalizing ks with
  | nil => simp [keysAfter]
  | cons node rest ih =>
      by_cases hin : node.GetName ∈ ks
      · simp only [keysAfter, hin, if_true, ih, List.map_cons, List.mem_cons]
        constructor
        · rintro (h | h)
          · exact Or.inl h
          · exact Or.inr (Or.inr h)
        · rintro (h | h | h)
          · exact Or.inl h
          · exact Or.inl (h ▸ hin)
          · exact Or.inr h
      · simp only [keysAfter, hin, if_false, ih, List.map_cons, List.mem_cons,
          List.mem_append, List.mem_singleton]
        tauto

theorem rangePerIteration_UAsset_length (nodes : List UnitAsset) (s : Store) :
    (rangePerIteration nodes s).UAsset.length = s.UAsset.length + nodes.length := by
  induction nodes generalizing s with
  | nil => rfl
  | cons node rest ih =>
      simp only [rangePerIteration, ih, registerNode, List.length_append, List.length_cons,
        List.length_nil]
      omega

theorem rangePerLoop_UAsset_length (p : Ptr) (nodes : List UnitAsset) (s : Store) :
    (rangePerLoop p nodes s).UAsset.length = s.UAsset.length + nodes.length := by
  induction nodes generalizing s with
  | nil => rfl
  | cons node rest ih =>
      simp only [rangePerLoop, ih, registerNode, List.length_append, List.length_cons,
        List.length_nil]
      omega

theorem rangeNodes_UAsset_length (sem : LoopVar) (nodes : List UnitAsset) (s : Store) :
    (rangeNodes sem nodes s).UAsset.length = s.UAsset.length + nodes.length := by
  cases sem
  · exact rangePerIteration_UAsset_length nodes s
  · simp [rangeNodes, rangePerLoop_UAsset_length]

theorem foldl_rangeNodes_UAsset_length (sem : LoopVar) (nls : List (List UnitAsset))
    (s : Store) :
    (nls.foldl (fun s nl => rangeNodes sem nl s) s).UAsset.length =
      s.UAsset.length + nls.flatten.length := by
  induction nls generalizing s with
  | nil => rfl
  | cons nl rest ih =>
      simp only [List.foldl_cons, ih, rangeNodes_UAsset_length, List.flatten_cons,
        List.length_append]
      omega

/-! ## The registry: pointers -/

theorem rangePerIteration_ptr_pos (nodes : List UnitAsset) (s : Store)
    (hh : 1 ≤ s.heap.length) (hp : ∀ p : Nat, p ∈ s.UAsset → 1 ≤ p) :
    1 ≤ (rangePerIteration nodes s).heap.length ∧
      ∀ p : Nat, p ∈ (rangePerIteration nodes s).UAsset → 1 ≤ p := by
  induction nodes generalizing s with
  | nil => exact ⟨hh, hp⟩
  | cons node rest ih =>
      apply ih
      · simp [registerNode]
      · intro p hmem
        simp only [registerNode, List.mem_append, List.mem_singleton] at hmem
        rcases hmem with h | h
        · exact hp p h
        · omega

theorem rangePerLoop_ptr_pos (q : Nat) (hq : 1 ≤ q) (nodes : List UnitAsset) (s : Store)
    (hh : 1 ≤ s.heap.length) (hp : ∀ p : Nat, p ∈ s.UAsset → 1 ≤ p) :
    1 ≤ (rangePerLoop q nodes s).heap.length ∧
      ∀ p : Nat, p ∈ (rangePerLoop q nodes s).UAsset → 1 ≤ p := by
  induction nodes generalizing s with
  | nil => exact ⟨hh, hp⟩
  | cons node rest ih =>
      apply ih
      · simpa [registerNode] using hh
      · intro p hmem
        simp only [registerNode, List.mem_append, List.mem_singleton] at hmem
        rcases hmem with h | h
        · exact hp p h
        · omega

theorem rangeNodes_ptr_pos (sem : LoopVar) (nodes : List UnitAsset) (s : Store)
    (hh : 1 ≤ s.heap.length) (hp : ∀ p : Nat, p ∈ s.UAsset → 1 ≤ p) :
    1 ≤ (rangeNodes sem nodes s).heap.length ∧
      ∀ p : Nat, p ∈ (rangeNodes sem nodes s).UAsset → 1 ≤ p := by
  cases sem
  · exact rangePerIteration_ptr_pos nodes s hh hp
  · exact rangePerLoop_ptr_pos _ hh nodes _ (by simp) hp

theorem foldl_rangeNodes_ptr_pos (sem : LoopVar) (nls : List (List UnitAsset)) (s : Store)
    (hh : 1 ≤ s.heap.length) (hp : ∀ p : Nat, p ∈ s.UAsset → 1 ≤ p) :
    ∀ p : Nat, p ∈ (nls.foldl (fun s nl => rangeNodes sem nl s) s).UAsset → 1 ≤ p := by
  induction nls generalizing s with
  | nil => exact hp
  | cons nl rest ih =>
      have h := rangeNodes_ptr_pos sem nl s hh hp
      exact ih _ h.1 h.2

theorem rangePerIteration_append (a b : List UnitAsset) (s : Store) :
    rangePerIteration (a ++ b) s = rangePerIteration b (rangePerIteration a s) := by
  induction a generalizing s with
  | nil => rfl
  | cons node rest ih => simp [rangePerIteration, ih]

theorem foldl_rangePerIteration (nls : List (List UnitAsset)) (s : Store) :
    nls.foldl (fun s nl => rangeNodes LoopVar.perIteration nl s) s =
      rangePerIteration nls.flatten s := by
  induction nls generalizing s with
  | nil => rfl
  | cons nl rest ih =>
      show List.foldl _ (rangeNodes LoopVar.perIteration nl s) rest = _
      rw [ih, List.flatten_cons, rangePerIteration_append]
      rfl

theorem rangePerIteration_heap (nodes : List UnitAsset) (s : Store) :
    (rangePerIteration nodes s).heap = s.heap ++ nodes.map Obj.asset := by
  induction nodes generalizing s with
  | nil => simp [rangePerIteration]
  | cons node rest ih => simp [rangePerIteration, ih, registerNode]

theorem rangePerIteration_UAsset (nodes : List UnitAsset) (s : Store) :
    (rangePerIteration nodes s).UAsset =
      s.UAsset ++ List.range' s.heap.length nodes.length := by
  induction nodes generalizing s with
  | nil => simp [rangePerIteration]
  | cons node rest ih => simp [rangePerIteration, ih, registerNode, List.range'_succ]

theorem lastNamed_cons (node : UnitAsset) (rest : List UnitAsset) (k : String) :
    lastNamed (node :: rest) k =
      match lastNamed rest k with
      | some u => some u
      | none => if node.GetName = k then some node else none := by
  unfold lastNamed
  rw [List.reverse_cons, List.find?_append]
  cases h : List.find? (fun u => decide (u.GetName = k)) rest.reverse with
  | some u => simp
  | none => by_cases hk : node.GetName = k <;> simp [hk]

theorem lastNamed_name {nodes : List UnitAsset} {k : String} {u : UnitAsset}
    (h : lastNamed nodes k = some u) : u.GetName = k := by
  unfold lastNamed at h
  simpa using List.find?_some h

/-- A lookup in `Resources` after the inner loop (one variable per iteration)
either finds an older entry, when no new asset has the name, or the variable
of the last new asset with that name. -/
theorem rangePerIteration_mapGet (nodes : List UnitAsset) (s : Store) (k : String) (p : Nat)
    (h : mapGet (rangePerIteration nodes s).Resources k = some p) :
    (lastNamed nodes k = none ∧ mapGet s.Resources k = some p) ∨
      ∃ j u, nodes[j]? = some u ∧ p = s.heap.length + j ∧ lastNamed nodes k = some u := by
  induction nodes generalizing s with
  | nil => exact Or.inl ⟨rfl, h⟩
  | cons node rest ih =>
      rw [rangePerIteration] at h
      rcases ih _ h with ⟨hnone, hget⟩ | ⟨j, u, hj, hp, hlast⟩
      · simp only [registerNode, mapGet_mapSet] at hget
        by_cases hk : node.GetName = k
        · right
          refine ⟨0, node, by simp, ?_, ?_⟩
          · simp only [hk, if_true, Option.some.injEq] at hget
            simp only [← hget, Nat.add_zero]
          · rw [lastNamed_cons, hnone]
            simp [hk]
        · left
          refine ⟨?_, ?_⟩
          · rw [lastNamed_cons, hnone]
            simp [hk]
          · simpa [hk] using hget
      · right
        refine ⟨j + 1, u, by simpa using hj, ?_, ?_⟩
        · simp only [registerNode, List.length_append, List.length_cons, List.length_nil] at hp
          omega
        · rw [lastNamed_cons, hlast]

/-! ## Events of the trace -/

theorem mem_blockEvents (e : Event) (i n : Nat) :
    e ∈ blockEvents i n ↔
      ∃ j, i ≤ j ∧ j < i + n ∧ (e = Event.Unmarshal j ∨ e = Event.newResource j) := by
  induction n generalizing i with
  | zero =>
      simp only [blockEvents_zero, List.not_mem_nil, false_iff, not_exists]
      intro j h
      omega
  | succ n ih =>
      rw [blockEvents_succ]
      simp only [List.mem_cons, ih]
      constructor
      · rintro (h | h | ⟨j, h1, h2, h3⟩)
        · exact ⟨i, le_refl _, by omega, Or.inl h⟩
        · exact ⟨i, le_refl _, by omega, Or.inr h⟩
        · exact ⟨j, by omega, by omega, h3⟩
      · rintro ⟨j, h1, h2, h3⟩
        by_cases hj : j = i
        · subst hj
          rcases h3 with h | h
          · exact Or.inl h
          · exact Or.inr (Or.inl h)
        · exact Or.inr (Or.inr ⟨j, by omega, by omega, h3⟩)

theorem count_cleanup_reverse (i n : Nat) :
    List.count (Event.cleanup i) ((List.range' 0 n).reverse.map Event.cleanup) =
      if i < n then 1 else 0 := by
  have hinj : Function.Injective Event.cleanup := fun a b h => by cases h; rfl
  rw [List.count_map_of_injective _ _ hinj, List.count_reverse,
    List.count_eq_of_nodup (List.nodup_range' 0 n)]
  simp [List.mem_range']

theorem exists_first_malformed (env : Env) (raws : List String)
    (h : ∃ raw ∈ raws, decodes env raw = false) :
    ∃ good bad rest, raws = good ++ bad :: rest ∧ good = raws.takeWhile (decodes env) ∧
      (∀ raw ∈ good, decodes env raw = true) ∧ decodes env bad = false := by
  induction raws with
  | nil => obtain ⟨raw, hmem, _⟩ := h; cases hmem
  | cons x xs ih =>
      by_cases hx : decodes env x = true
      · obtain ⟨raw, hmem, hraw⟩ := h
        have hin : raw ∈ xs := by
          rcases List.mem_cons.mp hmem with h1 | h1
          · rw [h1, hx] at hraw; cases hraw
          · exact h1
        obtain ⟨good, bad, rest, heq, hgood, hall, hbad⟩ := ih ⟨raw, hin, hraw⟩
        refine ⟨x :: good, bad, rest, by rw [heq]; rfl, ?_, ?_, hbad⟩
        · rw [List.takeWhile_cons_of_pos hx, hgood]
        · intro y hy
          rcases List.mem_cons.mp hy with h1 | h1
          · rw [h1]; exact hx
          · exact hall y h1
      · have hx' : decodes env x = false := by simpa using hx
        refine ⟨[], x, xs, rfl, ?_, ?_, hx'⟩
        · rw [List.takeWhile_cons_of_neg hx]
        · intro y hy; cases hy

theorem main_of_malformed (sem : LoopVar) (env : Env) (good rest : List String)
    (bad err : String) (hc : env.Configure = Except.ok (good ++ bad :: rest))
    (hd : ∀ raw ∈ good, decodes env raw = true)
    (hb : env.Unmarshal bad = Except.error err) :
    main sem env =
      ({ store := (afterBlocks sem env good 0 loopEntry).store
         deferred := (List.range' 0 good.length).reverse.map Deferred.cleanup ++
           [Deferred.cancel]
         trace := Event.Configure :: blockEvents 0 good.length ++
           [Event.Unmarshal good.length,
            Event.Fatalf ("Resource configuration error: " ++ err ++ "\n")] },
       Exit.fatal) := by
  have h := startupLoop_malformed sem env good rest bad err hd hb 0 loopEntry
  unfold loopEntry at h
  simp only [main, hc, h]
  simp [afterBlocks, loopEntry]

theorem main_store_of_all_decode (sem : LoopVar) (env : Env) (raws : List String)
    (hc : env.Configure = Except.ok raws)
    (hd : ∀ raw ∈ raws, decodes env raw = true) :
    (main sem env).1.store =
      (nodeLists env raws 0).foldl (fun s nl => rangeNodes sem nl s) loopEntry.store := by
  rw [main_of_all_decode sem env raws hc hd]
  rfl

theorem main_keys_of_all_decode (sem : LoopVar) (env : Env) (raws : List String)
    (hc : env.Configure = Except.ok raws)
    (hd : ∀ raw ∈ raws, decodes env raw = true) :
    (main sem env).1.store.Resources.map Prod.fst = keysAfter [] (allNodes env raws) := by
  rw [main_store_of_all_decode sem env raws hc hd, foldl_rangeNodes_keys]
  rfl

theorem main_no_Fatalf_of_all_decode (sem : LoopVar) (env : Env) (raws : List String)
    (hc : env.Configure = Except.ok raws)
    (hd : ∀ raw ∈ raws, decodes env raw = true) (msg : String) :
    Event.Fatalf msg ∉ (main sem env).1.trace := by
  rw [main_of_all_decode sem env raws hc hd]
  simp [mem_blockEvents]

theorem mapGet_of_mem_keys (m : List (String × Ptr)) (k : String)
    (h : k ∈ m.map Prod.fst) : ∃ p, mapGet m k = some p := by
  induction m with
  | nil => simp at h
  | cons kv rest ih =>
      obtain ⟨k', v'⟩ := kv
      by_cases hk : k' = k
      · exact ⟨v', by simp [mapGet, hk]⟩
      · have hin : k ∈ rest.map Prod.fst := by
          simp only [List.map_cons, List.mem_cons] at h
          rcases h with h | h
          · exact absurd h.symm hk
          · exact h
        obtain ⟨p, hp⟩ := ih hin
        exact ⟨p, by simp [mapGet, hk, hp]⟩

theorem main_store_perIteration (env : Env) (raws : List String)
    (hc : env.Configure = Except.ok raws)
    (hd : ∀ raw ∈ raws, decodes env raw = true) :
    (main LoopVar.perIteration env).1.store =
      rangePerIteration (allNodes env raws) loopEntry.store := by
  rw [main_store_of_all_decode LoopVar.perIteration env raws hc hd, foldl_rangePerIteration]
  rfl

theorem main_heap_perIteration (env : Env) (raws : List String)
    (hc : env.Configure = Except.ok raws)
    (hd : ∀ raw ∈ raws, decodes env raw = true) :
    (main LoopVar.perIteration env).1.store.heap =
      Obj.config template :: (allNodes env raws).map Obj.asset := by
  rw [main_store_perIteration env raws hc hd, rangePerIteration_heap]
  rfl

theorem main_UAsset_perIteration (env : Env) (raws : List String)
    (hc : env.Configure = Except.ok raws)
    (hd : ∀ raw ∈ raws, decodes env raw = true) :
    (main LoopVar.perIteration env).1.store.UAsset =
      List.range' 1 (allNodes env raws).length := by
  rw [main_store_perIteration env raws hc hd, rangePerIteration_UAsset]
  rfl

theorem main_mapGet_perIteration (env : Env) (raws : List String)
    (hc : env.Configure = Except.ok raws)
    (hd : ∀ raw ∈ raws, decodes env raw = true) (k : String) (p : Nat)
    (h : mapGet (main LoopVar.perIteration env).1.store.Resources k = some p) :
    ∃ j u, (allNodes env raws)[j]? = some u ∧ p = 1 + j ∧
      lastNamed (allNodes env raws) k = some u := by
  rw [main_store_perIteration env raws hc hd] at h
  rcases rangePerIteration_mapGet _ _ k p h with ⟨_, hget⟩ | h'
  · simp [loopEntry, mapGet] at hget
  · exact h'

theorem deref_cons_succ (c : Obj) (nodes : List UnitAsset) (j : Nat) (u : UnitAsset)
    (hj : nodes[j]? = some u) :
    deref (c :: nodes.map Obj.asset) (1 + j) = some (Obj.asset u) := by
  have h1 : 1 + j = j + 1 := by omega
  simp [deref, h1, hj]

theorem map_deref_range' (pre : List Obj) (l : List Obj) :
    (List.range' pre.length l.length).map (deref (pre ++ l)) = l.map some := by
  induction l generalizing pre with
  | nil => simp
  | cons x xs ih =>
      have h := ih (pre ++ [x])
      simp only [List.length_append, List.length_cons, List.length_nil, List.append_assoc,
        List.singleton_append] at h
      simp only [List.length_cons, List.range'_succ, List.map_cons, h]
      have hx : deref (pre ++ x :: xs) pre.length = some x := by
        unfold deref
        rw [List.getElem?_append_right (le_refl _)]
        simp
      rw [hx]

/-! ## The registry: entries of `Resources` are entries of `sys.UAsset` -/

theorem lt_length_of_getElem?_eq_some {α : Type} {l : List α} {j : Nat} {a : α}
    (h : l[j]? = some a) : j < l.length := by
  by_contra hge
  rw [List.getElem?_eq_none (by omega)] at h
  cases h

theorem registerNode_inv (p : Nat) (node : UnitAsset) (s : Store) (heap : List Obj)
    (done : List UnitAsset) (h : RegistryInv s done) :
    RegistryInv (registerNode p node { s with heap := heap }) (done ++ [node]) := by
  obtain ⟨hlen, hmap⟩ := h
  refine ⟨by simp [registerNode, hlen], ?_⟩
  intro k q hq
  simp only [registerNode, mapGet_mapSet] at hq
  by_cases hk : node.GetName = k
  · rw [if_pos hk] at hq
    cases hq
    refine ⟨done.length, node, ?_, ?_, hk⟩
    · rw [List.getElem?_append_right (le_refl _)]
      simp
    · show (s.UAsset ++ [p])[done.length]? = some p
      rw [← hlen, List.getElem?_append_right (le_refl _)]
      simp
  · rw [if_neg hk] at hq
    obtain ⟨j, u, hj, hU, hname⟩ := hmap k q hq
    refine ⟨j, u, ?_, ?_, hname⟩
    · rw [List.getElem?_append_left (lt_length_of_getElem?_eq_some hj)]
      exact hj
    · show (s.UAsset ++ [p])[j]? = some q
      rw [List.getElem?_append_left (lt_length_of_getElem?_eq_some hU)]
      exact hU

theorem rangePerIteration_inv (nodes : List UnitAsset) (s : Store) (done : List UnitAsset)
    (h : RegistryInv s done) : RegistryInv (rangePerIteration nodes s) (done ++ nodes) := by
  induction nodes generalizing s done with
  | nil => simpa [rangePerIteration] using h
  | cons node rest ih =>
      have h1 := ih _ _ (registerNode_inv s.heap.length node s
        (s.heap ++ [Obj.asset node]) done h)
      simpa [rangePerIteration] using h1

theorem rangePerLoop_inv (p : Nat) (nodes : List UnitAsset) (s : Store)
    (done : List UnitAsset) (h : RegistryInv s done) :
    RegistryInv (rangePerLoop p nodes s) (done ++ nodes) := by
  induction nodes generalizing s done with
  | nil => simpa [rangePerLoop] using h
  | cons node rest ih =>
      have h1 := ih _ _ (registerNode_inv p node s (s.heap.set p (Obj.asset node)) done h)
      simpa [rangePerLoop] using h1

theorem rangeNodes_inv (sem : LoopVar) (nodes : List UnitAsset) (s : Store)
    (done : List UnitAsset) (h : RegistryInv s done) :
    RegistryInv (rangeNodes sem nodes s) (done ++ nodes) := by
  cases sem
  · exact rangePerIteration_inv nodes s done h
  · exact rangePerLoop_inv _ nodes _ done h

theorem foldl_rangeNodes_inv (sem : LoopVar) (nls : List (List UnitAsset)) (s : Store)
    (done : List UnitAsset) (h : RegistryInv s done) :
    RegistryInv (nls.foldl (fun s nl => rangeNodes sem nl s) s) (done ++ nls.flatten) := by
  induction nls generalizing s done with
  | nil => simpa using h
  | cons nl rest ih =>
      have h1 := ih _ _ (rangeNodes_inv sem nl s done h)
      simpa using h1

theorem main_registry_inv (sem : LoopVar) (env : Env) (raws : List String)
    (hc : env.Configure = Except.ok raws)
    (hd : ∀ raw ∈ raws, decodes env raw = true) :
    RegistryInv (main sem env).1.store (allNodes env raws) := by
  rw [main_store_of_all_decode sem env raws hc hd]
  have h0 : RegistryInv loopEntry.store [] :=
    ⟨rfl, fun k p hp => by simp [loopEntry, mapGet] at hp⟩
  have h := foldl_rangeNodes_inv sem (nodeLists env raws 0) loopEntry.store [] h0
  simpa [allNodes] using h

/-- With one loop variable per iteration, every key `k` of `Resources` is
mapped to a pointer appended to `sys.UAsset` in an iteration `j`, and the
pointer designates the asset of that iteration, whose name is `k`. -/
theorem main_designates_perIteration (env : Env) (raws : List String)
    (hc : env.Configure = Except.ok raws)
    (hd : ∀ raw ∈ raws, decodes env raw = true) :
    ∀ k ∈ (main LoopVar.perIteration env).1.store.Resources.map Prod.fst,
      ∃ (p : Ptr) (j : Nat) (u : UnitAsset),
        mapGet (main LoopVar.perIteration env).1.store.Resources k = some p
        ∧ (allNodes env raws)[j]? = some u
        ∧ (main LoopVar.perIteration env).1.store.UAsset[j]? = some p
        ∧ deref (main LoopVar.perIteration env).1.store.heap p = some (Obj.asset u)
        ∧ u.GetName = k := by
  intro k hk
  obtain ⟨p, hp⟩ := mapGet_of_mem_keys _ k hk
  obtain ⟨j, u, hj, hpj, hlast⟩ := main_mapGet_perIteration env raws hc hd k p hp
  refine ⟨p, j, u, hp, hj, ?_, ?_, lastNamed_name hlast⟩
  · rw [main_UAsset_perIteration env raws hc hd]
    rw [List.getElem?_range' _ _ (lt_length_of_getElem?_eq_some hj), hpj]
    simp
  · rw [main_heap_perIteration env raws hc hd, hpj]
    exact deref_cons_succ _ _ j u hj

theorem length_lt_of_not_nodup (keys names : List String) (hk : keys.Nodup)
    (hsub : ∀ k, k ∈ keys → k ∈ names) (hn : ¬ names.Nodup) :
    keys.length < names.length := by
  have hsp : List.Subperm keys names := List.subperm_of_subset hk hsub
  by_contra hge
  have hperm := hsp.perm_of_length_le (by omega)
  exact hn (hperm.nodup_iff.mp hk)

/-! ## Startup and shutdown theorems -/

/-- C4: when every raw block decodes and the resulting assets have pairwise
distinct names, `main` does not abort (it returns, no `log.Fatalf`) and the
keys of `Resources` are exactly the names of the configured assets, each
once, so that `Resources` has as many entries as there are assets. -/
theorem main_registers_distinct_names (sem : LoopVar) (env : Env) (raws : List String)
    (hc : env.Configure = Except.ok raws)
    (hd : ∀ raw ∈ raws, decodes env raw = true)
    (hn : ((allNodes env raws).map UnitAsset.GetName).Nodup) :
    (main sem env).2 = Exit.returned
      ∧ (∀ msg, Event.Fatalf msg ∉ (main sem env).1.trace)
      ∧ (main sem env).1.store.Resources.map Prod.fst =
          (allNodes env raws).map UnitAsset.GetName
      ∧ ((main sem env).1.store.Resources.map Prod.fst).Nodup
      ∧ (main sem env).1.store.Resources.length = (allNodes env raws).length := by
  have hkeys : (main sem env).1.store.Resources.map Prod.fst =
      (allNodes env raws).map UnitAsset.GetName := by
    rw [main_keys_of_all_decode sem env raws hc hd, keysAfter_of_nodup [] _ (by simpa using hn)]
    simp
  refine ⟨?_, main_no_Fatalf_of_all_decode sem env raws hc hd, hkeys, ?_, ?_⟩
  · rw [main_of_all_decode sem env raws hc hd]
  · rw [hkeys]; exact hn
  · have h := congrArg List.length hkeys
    simpa using h

/-- Witness of C4: two PLCs with two nodes each. -/
theorem main_registers_distinct_names_witness :
    (main LoopVar.perIteration plcEnv).2 = Exit.returned
      ∧ (∀ msg, Event.Fatalf msg ∉ (main LoopVar.perIteration plcEnv).1.trace)
      ∧ (main LoopVar.perIteration plcEnv).1.store.Resources.map Prod.fst =
          (allNodes plcEnv ["PLC1", "PLC2"]).map UnitAsset.GetName
      ∧ ((main LoopVar.perIteration plcEnv).1.store.Resources.map Prod.fst).Nodup
      ∧ (main LoopVar.perIteration plcEnv).1.store.Resources.length =
          (allNodes plcEnv ["PLC1", "PLC2"]).length :=
  main_registers_distinct_names LoopVar.perIteration plcEnv ["PLC1", "PLC2"] rfl
    (by decide) (by decide)

/-- C5, as stated, fails: with two assets sharing the name "Temperature"
`main` does not abort, under either loop-variable semantics; it reaches
service registration and starts the HTTP listener, `sys.UAsset` has an entry
for both assets and `Resources` holds an entry. -/
theorem main_duplicate_names_not_fatal :
    ¬ ((allNodes dupEnv ["PLC1", "PLC2"]).map UnitAsset.GetName).Nodup
      ∧ dupEnv.Configure = Except.ok ["PLC1", "PLC2"]
      ∧ (main LoopVar.perIteration dupEnv).2 = Exit.returned
      ∧ Event.RegisterServices ∈ (main LoopVar.perIteration dupEnv).1.trace
      ∧ Event.goHttpInterface ∈ (main LoopVar.perIteration dupEnv).1.trace
      ∧ (main LoopVar.perIteration dupEnv).1.store.UAsset = [1, 2]
      ∧ (main LoopVar.perIteration dupEnv).1.store.Resources = [("Temperature", 2)]
      ∧ (main LoopVar.perLoop dupEnv).2 = Exit.returned
      ∧ Event.RegisterServices ∈ (main LoopVar.perLoop dupEnv).1.trace
      ∧ Event.goHttpInterface ∈ (main LoopVar.perLoop dupEnv).1.trace
      ∧ (main LoopVar.perLoop dupEnv).1.store.UAsset = [1, 2]
      ∧ (main LoopVar.perLoop dupEnv).1.store.Resources = [("Temperature", 2)] :=
  ⟨by decide, rfl, by decide, by decide, by decide, by decide, by decide,
   by decide, by decide, by decide, by decide, by decide⟩

/-- C5, amended: `main` has no check for duplicate names. Whenever every raw
block decodes, also when two assets share a name, `main` does not abort: it
reaches service registration and the start of the HTTP listener,
`sys.UAsset` has one entry for each asset, duplicates included, and
`Resources` has one entry for each distinct name, hence fewer entries than
there are assets when two assets share a name. -/
theorem main_duplicate_names_registered (sem : LoopVar) (env : Env) (raws : List String)
    (hc : env.Configure = Except.ok raws)
    (hd : ∀ raw ∈ raws, decodes env raw = true) :
    (main sem env).2 = Exit.returned
      ∧ (∀ msg, Event.Fatalf msg ∉ (main sem env).1.trace)
      ∧ Event.RegisterServices ∈ (main sem env).1.trace
      ∧ Event.goHttpInterface ∈ (main sem env).1.trace
      ∧ (main sem env).1.store.UAsset.length = (allNodes env raws).length
      ∧ ((main sem env).1.store.Resources.map Prod.fst).Nodup
      ∧ (∀ k, k ∈ (main sem env).1.store.Resources.map Prod.fst ↔
          k ∈ (allNodes env raws).map UnitAsset.GetName)
      ∧ (¬ ((allNodes env raws).map UnitAsset.GetName).Nodup →
          (main sem env).1.store.Resources.length < (allNodes env raws).length) := by
  have hnodup : ((main sem env).1.store.Resources.map Prod.fst).Nodup := by
    rw [main_keys_of_all_decode sem env raws hc hd]
    exact keysAfter_nodup [] _ List.nodup_nil
  have hmem : ∀ k, k ∈ (main sem env).1.store.Resources.map Prod.fst ↔
      k ∈ (allNodes env raws).map UnitAsset.GetName := by
    intro k
    rw [main_keys_of_all_decode sem env raws hc hd, mem_keysAfter]
    simp
  refine ⟨?_, main_no_Fatalf_of_all_decode sem env raws hc hd, ?_, ?_, ?_, hnodup, hmem, ?_⟩
  · rw [main_of_all_decode sem env raws hc hd]
  · rw [main_of_all_decode sem env raws hc hd]
    simp
  · rw [main_of_all_decode sem env raws hc hd]
    simp
  · rw [main_store_of_all_decode sem env raws hc hd, foldl_rangeNodes_UAsset_length]
    simp [loopEntry, allNodes]
  · intro hn
    have h := length_lt_of_not_nodup _ _ hnodup (fun k hk => (hmem k).mp hk) hn
    simpa using h

/-- Witness of the amended C5: two blocks whose assets share a name, under
either loop-variable semantics. -/
theorem main_duplicate_names_registered_witness :
    (main LoopVar.perLoop dupEnv).2 = Exit.returned
      ∧ (main LoopVar.perLoop dupEnv).1.store.UAsset.length =
          (allNodes dupEnv ["PLC1", "PLC2"]).length
      ∧ ((main LoopVar.perLoop dupEnv).1.store.Resources.map Prod.fst).Nodup
      ∧ (main LoopVar.perLoop dupEnv).1.store.Resources.length <
          (allNodes dupEnv ["PLC1", "PLC2"]).length
      ∧ (main LoopVar.perIteration dupEnv).2 = Exit.returned
      ∧ Event.RegisterServices ∈ (main LoopVar.perIteration dupEnv).1.trace
      ∧ Event.goHttpInterface ∈ (main LoopVar.perIteration dupEnv).1.trace
      ∧ (main LoopVar.perIteration dupEnv).1.store.Resources.length <
          (allNodes dupEnv ["PLC1", "PLC2"]).length :=
  ⟨(main_duplicate_names_registered LoopVar.perLoop dupEnv ["PLC1", "PLC2"] rfl
      (by decide)).1,
   (main_duplicate_names_registered LoopVar.perLoop dupEnv ["PLC1", "PLC2"] rfl
      (by decide)).2.2.2.2.1,
   (main_duplicate_names_registered LoopVar.perLoop dupEnv ["PLC1", "PLC2"] rfl
      (by decide)).2.2.2.2.2.1,
   (main_duplicate_names_registered LoopVar.perLoop dupEnv ["PLC1", "PLC2"] rfl
      (by decide)).2.2.2.2.2.2.2 (by decide),
   (main_duplicate_names_registered LoopVar.perIteration dupEnv ["PLC1", "PLC2"] rfl
      (by decide)).1,
   (main_duplicate_names_registered LoopVar.perIteration dupEnv ["PLC1", "PLC2"] rfl
      (by decide)).2.2.1,
   (main_duplicate_names_registered LoopVar.perIteration dupEnv ["PLC1", "PLC2"] rfl
      (by decide)).2.2.2.1,
   (main_duplicate_names_registered LoopVar.perIteration dupEnv ["PLC1", "PLC2"] rfl
      (by decide)).2.2.2.2.2.2.2 (by decide)⟩

/-- C7: on a normal shutdown (all `n` raw blocks processed, then the signal
on `sys.Sigs`) the events of `main` are: the startup, the receipt of the
signal, `cancel()`, the sleep, then the cleanups of the blocks `n - 1, ..., 0`
in this order (the reverse of their acquisition), then the deferred second
`cancel()`, after which `main` returns. Every cleanup runs exactly once and
no deferred call is left pending. -/
theorem main_shutdown_order (sem : LoopVar) (env : Env) (raws : List String)
    (hc : env.Configure = Except.ok raws)
    (hd : ∀ raw ∈ raws, decodes env raw = true) :
    (main sem env).2 = Exit.returned
      ∧ (main sem env).1.trace =
          Event.Configure :: blockEvents 0 raws.length ++
            [Event.CreateCSR, Event.RegisterServices, Event.goHttpInterface,
             Event.recvSigs, Event.Println, Event.cancel, Event.Sleep 3] ++
            ((List.range' 0 raws.length).reverse.map Event.cleanup ++ [Event.cancel])
      ∧ (∀ i, i < raws.length → List.count (Event.cleanup i) (main sem env).1.trace = 1)
      ∧ (∀ i, raws.length ≤ i → List.count (Event.cleanup i) (main sem env).1.trace = 0)
      ∧ (main sem env).1.deferred = [] := by
  have hcount : ∀ i, List.count (Event.cleanup i) (main sem env).1.trace =
      if i < raws.length then 1 else 0 := by
    intro i
    rw [main_of_all_decode sem env raws hc hd]
    have hb : List.count (Event.cleanup i) (blockEvents 0 raws.length) = 0 := by
      rw [List.count_eq_zero]
      simp [mem_blockEvents]
    simp only [List.count_cons, List.count_append, hb, count_cleanup_reverse,
      List.count_nil]
    simp
  refine ⟨?_, ?_, ?_, ?_, ?_⟩
  · rw [main_of_all_decode sem env raws hc hd]
  · rw [main_of_all_decode sem env raws hc hd]
  · intro i hi
    rw [hcount i, if_pos hi]
  · intro i hi
    rw [hcount i, if_neg (by omega)]
  · rw [main_of_all_decode sem env raws hc hd]

/-- Witness of C7: two PLCs, cleanup of the second before the first. -/
theorem main_shutdown_order_witness :
    (main LoopVar.perIteration plcEnv).2 = Exit.returned
      ∧ (main LoopVar.perIteration plcEnv).1.trace =
          Event.Configure :: blockEvents 0 ["PLC1", "PLC2"].length ++
            [Event.CreateCSR, Event.RegisterServices, Event.goHttpInterface,
             Event.recvSigs, Event.Println, Event.cancel, Event.Sleep 3] ++
            ((List.range' 0 ["PLC1", "PLC2"].length).reverse.map Event.cleanup ++
              [Event.cancel])
      ∧ (∀ i, i < ["PLC1", "PLC2"].length →
          List.count (Event.cleanup i) (main LoopVar.perIteration plcEnv).1.trace = 1)
      ∧ (∀ i, ["PLC1", "PLC2"].length ≤ i →
          List.count (Event.cleanup i) (main LoopVar.perIteration plcEnv).1.trace = 0)
      ∧ (main LoopVar.perIteration plcEnv).1.deferred = [] :=
  main_shutdown_order LoopVar.perIteration plcEnv ["PLC1", "PLC2"] rfl (by decide)

/-- C8 at the failing input: the first block decodes and its resource is
acquired, the second block does not decode. `log.Fatalf` ends the process
with the cleanup of the first block still pending: it is never called. -/
theorem main_fatal_skips_cleanup :
    (main LoopVar.perIteration malformedEnv).2 = Exit.fatal
      ∧ (main LoopVar.perIteration malformedEnv).1.trace =
          [Event.Configure, Event.Unmarshal 0, Event.newResource 0, Event.Unmarshal 1,
           Event.Fatalf "Resource configuration error: unexpected end of JSON input\n"]
      ∧ (main LoopVar.perIteration malformedEnv).1.deferred =
          [Deferred.cleanup 0, Deferred.cancel]
      ∧ List.count (Event.cleanup 0) (main LoopVar.perIteration malformedEnv).1.trace = 0 := by
  decide

/-- C9: when at least one raw block does not decode, `main` ends with
`log.Fatalf` at the first such block `k`: the blocks before it are processed,
block `k` is the last one handed to `json.Unmarshal`, no `newResource` call is
made for it or any later block, and certificate creation, service registration
and the start of the HTTP listener are never reached. -/
theorem main_malformed_aborts (sem : LoopVar) (env : Env) (raws : List String)
    (hc : env.Configure = Except.ok raws)
    (hbad : ∃ raw ∈ raws, decodes env raw = false) :
    (main sem env).2 = Exit.fatal
      ∧ (raws[firstMalformed env raws]?).map (decodes env) = some false
      ∧ (∀ j, j < firstMalformed env raws → (raws[j]?).map (decodes env) = some true)
      ∧ (∃ err, (main sem env).1.trace =
          Event.Configure :: blockEvents 0 (firstMalformed env raws) ++
            [Event.Unmarshal (firstMalformed env raws),
             Event.Fatalf ("Resource configuration error: " ++ err ++ "\n")])
      ∧ (∀ j, firstMalformed env raws < j → Event.Unmarshal j ∉ (main sem env).1.trace)
      ∧ (∀ j, firstMalformed env raws ≤ j → Event.newResource j ∉ (main sem env).1.trace)
      ∧ Event.CreateCSR ∉ (main sem env).1.trace
      ∧ Event.RegisterServices ∉ (main sem env).1.trace
      ∧ Event.goHttpInterface ∉ (main sem env).1.trace := by
  obtain ⟨good, bad, rest, heq, hgood, hall, hb⟩ := exists_first_malformed env raws hbad
  obtain ⟨err, herr⟩ := decodes_eq_false hb
  have hk : firstMalformed env raws = good.length := by
    unfold firstMalformed
    rw [← hgood]
  have hmain := main_of_malformed sem env good rest bad err (heq ▸ hc) hall herr
  rw [hk, hmain]
  subst heq
  refine ⟨rfl, ?_, ?_, ⟨err, rfl⟩, ?_, ?_, ?_, ?_, ?_⟩
  · rw [List.getElem?_append_right (le_refl _)]
    simp [hb]
  · intro j hj
    rw [List.getElem?_append_left hj]
    have hmem : good[j] ∈ good := List.getElem_mem hj
    simp [List.getElem?_eq_getElem hj, hall _ hmem]
  · intro j hj hmem
    simp only [List.cons_append, List.mem_cons, List.mem_append, mem_blockEvents,
      List.mem_singleton, List.not_mem_nil, or_false] at hmem
    rcases hmem with h | ⟨j', _, h2, h3 | h3⟩ | h | h
    · cases h
    · cases h3; omega
    · cases h3
    · cases h; omega
    · cases h
  · intro j hj hmem
    simp only [List.cons_append, List.mem_cons, List.mem_append, mem_blockEvents,
      List.mem_singleton, List.not_mem_nil, or_false] at hmem
    rcases hmem with h | ⟨j', _, h2, h3 | h3⟩ | h | h
    · cases h
    · cases h3
    · cases h3; omega
    · cases h
    · cases h
  · simp [mem_blockEvents]
  · simp [mem_blockEvents]
  · simp [mem_blockEvents]

/-- Witness of C9: the second of three blocks does not decode. -/
theorem main_malformed_aborts_witness :
    (main LoopVar.perIteration malformedEnv).2 = Exit.fatal
      ∧ (["PLC1", "bad", "PLC3"][firstMalformed malformedEnv ["PLC1", "bad", "PLC3"]]?).map
          (decodes malformedEnv) = some false
      ∧ (∀ j, j < firstMalformed malformedEnv ["PLC1", "bad", "PLC3"] →
          (["PLC1", "bad", "PLC3"][j]?).map (decodes malformedEnv) = some true)
      ∧ (∃ err, (main LoopVar.perIteration malformedEnv).1.trace =
          Event.Configure :: blockEvents 0 (firstMalformed malformedEnv ["PLC1", "bad", "PLC3"]) ++
            [Event.Unmarshal (firstMalformed malformedEnv ["PLC1", "bad", "PLC3"]),
             Event.Fatalf ("Resource configuration error: " ++ err ++ "\n")])
      ∧ (∀ j, firstMalformed malformedEnv ["PLC1", "bad", "PLC3"] < j →
          Event.Unmarshal j ∉ (main LoopVar.perIteration malformedEnv).1.trace)
      ∧ (∀ j, firstMalformed malformedEnv ["PLC1", "bad", "PLC3"] ≤ j →
          Event.newResource j ∉ (main LoopVar.perIteration malformedEnv).1.trace)
      ∧ Event.CreateCSR ∉ (main LoopVar.perIteration malformedEnv).1.trace
      ∧ Event.RegisterServices ∉ (main LoopVar.perIteration malformedEnv).1.trace
      ∧ Event.goHttpInterface ∉ (main LoopVar.perIteration malformedEnv).1.trace :=
  main_malformed_aborts LoopVar.perIteration malformedEnv ["PLC1", "bad", "PLC3"] rfl
    ⟨"bad", by decide, by decide⟩

/-- C6, as stated, fails when the inner loop has a single variable `node`
(the language before Go 1.22): for two PLCs with two nodes each it is not
true that every key of `Resources` is mapped to a pointer designating an asset
with that name. The entry of "PLC1/Temperature" designates the variable that
ends up holding the asset "PLC1/Pressure". -/
theorem main_registry_aliasing_perLoop :
    plcEnv.Configure = Except.ok ["PLC1", "PLC2"]
      ∧ (∀ raw ∈ ["PLC1", "PLC2"], decodes plcEnv raw = true)
      ∧ mapGet (main LoopVar.perLoop plcEnv).1.store.Resources "PLC1/Temperature" = some 1
      ∧ deref (main LoopVar.perLoop plcEnv).1.store.heap 1 =
          some (Obj.asset ⟨"PLC1/Pressure", [], "opc.tcp://PLC1"⟩)
      ∧ ¬ (∀ k ∈ (main LoopVar.perLoop plcEnv).1.store.Resources.map Prod.fst,
          ∃ (p : Ptr) (u : UnitAsset),
            mapGet (main LoopVar.perLoop plcEnv).1.store.Resources k = some p
            ∧ deref (main LoopVar.perLoop plcEnv).1.store.heap p = some (Obj.asset u)
            ∧ u.GetName = k) := by
  refine ⟨rfl, by decide, by decide, by decide, ?_⟩
  intro h
  obtain ⟨p, u, hp, hu, hname⟩ := h "PLC1/Temperature" (by decide)
  have hp1 : mapGet (main LoopVar.perLoop plcEnv).1.store.Resources "PLC1/Temperature" =
      some 1 := by decide
  rw [hp1] at hp
  cases hp
  have hu1 : deref (main LoopVar.perLoop plcEnv).1.store.heap 1 =
      some (Obj.asset ⟨"PLC1/Pressure", [], "opc.tcp://PLC1"⟩) := by decide
  rw [hu1] at hu
  cases hu
  revert hname
  decide

/-- C6, amended: after the startup loop, under either loop-variable
semantics, every key `k` of `Resources` is mapped to the pointer that was
appended to `sys.UAsset` in an iteration `j` whose node has the name `k`;
and when the loop has one variable per iteration (Go 1.22 and later) that
pointer designates the asset of iteration `j` itself, so that the asset
stored under `k` has the name `k`. -/
theorem main_registry_pointers (sem : LoopVar) (env : Env) (raws : List String)
    (hc : env.Configure = Except.ok raws)
    (hd : ∀ raw ∈ raws, decodes env raw = true) :
    (∀ k ∈ (main sem env).1.store.Resources.map Prod.fst,
        ∃ (p : Ptr) (j : Nat) (u : UnitAsset),
          mapGet (main sem env).1.store.Resources k = some p
          ∧ (allNodes env raws)[j]? = some u
          ∧ (main sem env).1.store.UAsset[j]? = some p
          ∧ u.GetName = k)
      ∧ (sem = LoopVar.perIteration →
          ∀ k ∈ (main sem env).1.store.Resources.map Prod.fst,
            ∃ (p : Ptr) (j : Nat) (u : UnitAsset),
              mapGet (main sem env).1.store.Resources k = some p
              ∧ (allNodes env raws)[j]? = some u
              ∧ (main sem env).1.store.UAsset[j]? = some p
              ∧ deref (main sem env).1.store.heap p = some (Obj.asset u)
              ∧ u.GetName = k) := by
  refine ⟨?_, ?_⟩
  · intro k hk
    obtain ⟨p, hp⟩ := mapGet_of_mem_keys _ k hk
    obtain ⟨j, u, hj, hU, hname⟩ := (main_registry_inv sem env raws hc hd).2 k p hp
    exact ⟨p, j, u, hp, hj, hU, hname⟩
  · intro hsem
    subst hsem
    exact main_designates_perIteration env raws hc hd

/-- Witness of the amended C6: two PLCs with two nodes each, at the key
"PLC1/Temperature"; the pointer part with a single loop variable, the
designation part with one variable per iteration. -/
theorem main_registry_pointers_witness :
    (∃ (p : Ptr) (j : Nat) (u : UnitAsset),
        mapGet (main LoopVar.perLoop plcEnv).1.store.Resources "PLC1/Temperature" = some p
          ∧ (allNodes plcEnv ["PLC1", "PLC2"])[j]? = some u
          ∧ (main LoopVar.perLoop plcEnv).1.store.UAsset[j]? = some p
          ∧ u.GetName = "PLC1/Temperature")
      ∧ ∃ (p : Ptr) (j : Nat) (u : UnitAsset),
        mapGet (main LoopVar.perIteration plcEnv).1.store.Resources "PLC1/Temperature" =
            some p
          ∧ (allNodes plcEnv ["PLC1", "PLC2"])[j]? = some u
          ∧ (main LoopVar.perIteration plcEnv).1.store.UAsset[j]? = some p
          ∧ deref (main LoopVar.perIteration plcEnv).1.store.heap p = some (Obj.asset u)
          ∧ u.GetName = "PLC1/Temperature" :=
  ⟨(main_registry_pointers LoopVar.perLoop plcEnv ["PLC1", "PLC2"] rfl (by decide)).1
      "PLC1/Temperature" (by decide),
   (main_registry_pointers LoopVar.perIteration plcEnv ["PLC1", "PLC2"] rfl (by decide)).2
      rfl "PLC1/Temperature" (by decide)⟩

/-- C10, as stated, fails when the inner loop has a single variable `node`
(the language before Go 1.22): for two PLCs with two nodes each the four
entries of `sys.UAsset` are two pointers, each twice, and they designate the
last node of each list twice instead of the nodes of the lists in order. -/
theorem main_UAsset_aliasing_perLoop :
    plcEnv.Configure = Except.ok ["PLC1", "PLC2"]
      ∧ (∀ raw ∈ ["PLC1", "PLC2"], decodes plcEnv raw = true)
      ∧ (main LoopVar.perLoop plcEnv).1.store.UAsset = [1, 1, 2, 2]
      ∧ (main LoopVar.perLoop plcEnv).1.store.UAsset.map
            (deref (main LoopVar.perLoop plcEnv).1.store.heap) =
          [some (Obj.asset ⟨"PLC1/Pressure", [], "opc.tcp://PLC1"⟩),
           some (Obj.asset ⟨"PLC1/Pressure", [], "opc.tcp://PLC1"⟩),
           some (Obj.asset ⟨"PLC2/Pressure", [], "opc.tcp://PLC2"⟩),
           some (Obj.asset ⟨"PLC2/Pressure", [], "opc.tcp://PLC2"⟩)]
      ∧ (main LoopVar.perLoop plcEnv).1.store.UAsset.map
            (deref (main LoopVar.perLoop plcEnv).1.store.heap) ≠
          (allNodes plcEnv ["PLC1", "PLC2"]).map fun u => some (Obj.asset u) :=
  ⟨rfl, by decide, by decide, by decide, by decide⟩

/-- C10, amended: when the startup loop has finished, under either
loop-variable semantics, the pointer to the template is not in `sys.UAsset`,
and `sys.UAsset` has one entry for each node of the node lists returned by
`newResource` (its length is the sum of their lengths, and it is empty when
there is no raw block); and when the loop has one variable per iteration
(Go 1.22 and later) its entries designate exactly the nodes of these lists, in
raw-block order and then node order. -/
theorem main_UAsset_is_node_lists (sem : LoopVar) (env : Env) (raws : List String)
    (hc : env.Configure = Except.ok raws)
    (hd : ∀ raw ∈ raws, decodes env raw = true) :
    templatePtr ∉ (main sem env).1.store.UAsset
      ∧ (main sem env).1.store.UAsset.length = ((nodeLists env raws 0).map List.length).sum
      ∧ (raws = [] → (main sem env).1.store.UAsset = [])
      ∧ (sem = LoopVar.perIteration →
          (main sem env).1.store.UAsset.map (deref (main sem env).1.store.heap) =
            (allNodes env raws).map fun u => some (Obj.asset u)) := by
  refine ⟨?_, ?_, ?_, ?_⟩
  · intro hmem
    rw [main_store_of_all_decode sem env raws hc hd] at hmem
    have h := foldl_rangeNodes_ptr_pos sem (nodeLists env raws 0) loopEntry.store
      (by simp [loopEntry]) (by simp [loopEntry]) templatePtr hmem
    simp [templatePtr] at h
  · rw [main_store_of_all_decode sem env raws hc hd, foldl_rangeNodes_UAsset_length]
    simp [loopEntry, List.length_flatten]
  · intro hnil
    subst hnil
    rw [main_store_of_all_decode sem env [] hc hd]
    rfl
  · intro hsem
    subst hsem
    rw [main_UAsset_perIteration env raws hc hd, main_heap_perIteration env raws hc hd]
    have h := map_deref_range' [Obj.config template] ((allNodes env raws).map Obj.asset)
    simp only [List.length_singleton, List.length_map, List.singleton_append,
      List.map_map] at h
    rw [h]
    rfl

/-- Witness of the amended C10: two PLCs with two nodes each; absence of the
template and length with a single loop variable, the designated nodes with
one variable per iteration. -/
theorem main_UAsset_is_node_lists_witness :
    templatePtr ∉ (main LoopVar.perLoop plcEnv).1.store.UAsset
      ∧ (main LoopVar.perLoop plcEnv).1.store.UAsset.length =
          ((nodeLists plcEnv ["PLC1", "PLC2"] 0).map List.length).sum
      ∧ templatePtr ∉ (main LoopVar.perIteration plcEnv).1.store.UAsset
      ∧ (main LoopVar.perIteration plcEnv).1.store.UAsset.map
            (deref (main LoopVar.perIteration plcEnv).1.store.heap) =
          (allNodes plcEnv ["PLC1", "PLC2"]).map fun u => some (Obj.asset u) :=
  ⟨(main_UAsset_is_node_lists LoopVar.perLoop plcEnv ["PLC1", "PLC2"] rfl (by decide)).1,
   (main_UAsset_is_node_lists LoopVar.perLoop plcEnv ["PLC1", "PLC2"] rfl (by decide)).2.1,
   (main_UAsset_is_node_lists LoopVar.perIteration plcEnv ["PLC1", "PLC2"] rfl
      (by decide)).1,
   (main_UAsset_is_node_lists LoopVar.perIteration plcEnv ["PLC1", "PLC2"] rfl
      (by decide)).2.2.2 rfl⟩

end UAClient
